import Mathlib

/-!
# qcloud-sdk-go, package `cos`: request signing and bucket listing

A shallow embedding of `src/cos/cos.go`.

Modelling conventions.

* A Go `string` is a Lean `String`, i.e. the embedding covers strings that are
  valid UTF-8.  `[]byte(s)` is `bytes s`, a list of naturals below 256.
* A Go `map` is an association list.  The order in which a `range` loop visits
  a map is not fixed by the language; for `req.URL.Query()` and `req.Header`
  the list order *is* the visiting order of one invocation, and for the
  seven-field map `m` the visiting order is the explicit argument `mOrder`.
* An index expression that can fail (`value[0]`, `a[1]`) makes the embedding
  return `none`.
* `unicode.ToLower` on runes above U+007F is a table of the Go runtime; it is
  the parameter `tbl` everywhere.
* `time.Now()` is the explicit argument `now`.
* The functions of the Go standard library that the source calls
  (`strings.ToLower`, `strings.Join`, `strings.Split`, `url.QueryEscape`,
  `fmt.Sprintf`, `sort.Slice`, `time.Time`, `crypto/sha1`, `crypto/hmac`) are
  embedded as executable definitions under the names the source uses.
-/

namespace Cos

/-! ## Bytes and hexadecimal -/

/-- UTF-8 encoding of one rune, as performed by the conversion `[]byte(s)`. -/
def encodeRune (c : Char) : List Nat :=
  let n := c.toNat
  if n < 128 then [n]
  else if n < 2048 then [192 + n / 64, 128 + n % 64]
  else if n < 65536 then [224 + n / 4096, 128 + n / 64 % 64, 128 + n % 64]
  else [240 + n / 262144, 128 + n / 4096 % 64, 128 + n / 64 % 64, 128 + n % 64]

/-- The conversion `[]byte(s)`. -/
def bytes (s : String) : List Nat := s.data.flatMap encodeRune

/-- One lowercase hexadecimal digit. -/
def hexDigit (n : Nat) : Char := Char.ofNat (if n < 10 then 48 + n else 87 + n)

/-- The verb `%x` of `fmt.Sprintf` on a byte slice: two lowercase digits per byte. -/
def hexEncode (bs : List Nat) : String :=
  String.mk (bs.flatMap fun b => [hexDigit (b / 16), hexDigit (b % 16)])

/-! ## `crypto/sha1` and `crypto/hmac` -/

/-- Rotation of a 32-bit word to the left. -/
def rotl32 (x n : Nat) : Nat := ((x <<< n) ||| (x >>> (32 - n))) % 4294967296

/-- The `n` low-order bytes of `x`, most significant first. -/
def beBytes : Nat → Nat → List Nat
  | 0, _ => []
  | n + 1, x => (x >>> (8 * n)) % 256 :: beBytes n x

/-- Big-endian value of a byte list. -/
def beWord (bs : List Nat) : Nat := bs.foldl (fun acc b => acc * 256 + b) 0

/-- SHA-1 padding: the message, the byte 0x80, zero bytes up to 56 modulo 64,
and the bit length as a 64-bit big-endian integer. -/
def sha1Pad (msg : List Nat) : List Nat :=
  let len := msg.length
  let k := (119 - len % 64) % 64
  msg ++ 128 :: List.replicate k 0 ++ beBytes 8 (8 * len % 18446744073709551616)

/-- The first `n` big-endian 32-bit words of a block. -/
def wordsOf : Nat → List Nat → List Nat
  | 0, _ => []
  | n + 1, bs => beWord (bs.take 4) :: wordsOf n (bs.drop 4)

/-- Message schedule: `w` holds the words computed so far, newest first, and is
extended by `n` more words. -/
def schedule : Nat → List Nat → List Nat
  | 0, w => w
  | n + 1, w =>
    let x := rotl32 (w.getD 2 0 ^^^ w.getD 7 0 ^^^ w.getD 13 0 ^^^ w.getD 15 0) 1
    schedule n (x :: w)

/-- The five 32-bit chaining words of SHA-1. -/
structure Digest where
  h0 : Nat
  h1 : Nat
  h2 : Nat
  h3 : Nat
  h4 : Nat
deriving DecidableEq

/-- One of the eighty rounds of the compression function. -/
def round (t : Nat) (s : Digest) (w : Nat) : Digest :=
  let f := if t < 20 then (s.h1 &&& s.h2) ||| ((s.h1 ^^^ 4294967295) &&& s.h3)
    else if t < 40 then s.h1 ^^^ s.h2 ^^^ s.h3
    else if t < 60 then (s.h1 &&& s.h2) ||| (s.h1 &&& s.h3) ||| (s.h2 &&& s.h3)
    else s.h1 ^^^ s.h2 ^^^ s.h3
  let k := if t < 20 then 1518500249 else if t < 40 then 1859775393
    else if t < 60 then 2400959708 else 3395469782
  let tmp := (rotl32 s.h0 5 + f + s.h4 + w + k) % 4294967296
  ⟨tmp, s.h0, rotl32 s.h1 30, s.h2, s.h3⟩

/-- The rounds over the scheduled words, starting at round `t`. -/
def rounds : Nat → List Nat → Digest → Digest
  | _, [], s => s
  | t, w :: ws, s => rounds (t + 1) ws (round t s w)

/-- Compression of one 64-byte block. -/
def block (d : Digest) (bs : List Nat) : Digest :=
  let w := (schedule 64 (wordsOf 16 bs).reverse).reverse
  let s := rounds 0 w d
  ⟨(d.h0 + s.h0) % 4294967296, (d.h1 + s.h1) % 4294967296, (d.h2 + s.h2) % 4294967296,
   (d.h3 + s.h3) % 4294967296, (d.h4 + s.h4) % 4294967296⟩

/-- Compression of `n` consecutive 64-byte blocks. -/
def blocks : Nat → List Nat → Digest → Digest
  | 0, _, d => d
  | n + 1, bs, d => blocks n (bs.drop 64) (block d (bs.take 64))

/-- The 20-byte digest `sha1.New(); h.Write(msg); h.Sum(nil)`. -/
def sha1Sum (msg : List Nat) : List Nat :=
  let p := sha1Pad msg
  let d := blocks (p.length / 64) p ⟨1732584193, 4023233417, 2562383102, 271733878, 3285377520⟩
  beBytes 4 d.h0 ++ beBytes 4 d.h1 ++ beBytes 4 d.h2 ++ beBytes 4 d.h3 ++ beBytes 4 d.h4

/-- The 20-byte tag `hmac.New(sha1.New, key); h.Write(data); h.Sum(nil)`:
a key longer than the 64-byte block is hashed first, then zero padded. -/
def hmacSHA1 (key data : List Nat) : List Nat :=
  let k := if key.length > 64 then sha1Sum key else key
  let k := k ++ List.replicate (64 - k.length) 0
  let ipad := k.map (· ^^^ 54)
  let opad := k.map (· ^^^ 92)
  sha1Sum (opad ++ sha1Sum (ipad ++ data))

/-- Source `hashHMACSHA1`: lowercase hex of HMAC-SHA1 keyed by the bytes of the string `key`. -/
def hashHMACSHA1 (key : String) (data : List Nat) : String :=
  hexEncode (hmacSHA1 (bytes key) data)

/-- Source `hashSHA1`: lowercase hex of SHA-1. -/
def hashSHA1 (data : List Nat) : String :=
  hexEncode (sha1Sum data)

/-! ## `strings`, `net/url`, `fmt`, `sort`, `time` -/

/-- The function `unicode.ToLower`: the ASCII branch is explicit, runes above
U+007F go through the case table `tbl`. -/
def unicodeToLower (tbl : Char → Char) (r : Char) : Char :=
  if r.toNat ≤ 127 then
    if 65 ≤ r.toNat ∧ r.toNat ≤ 90 then Char.ofNat (r.toNat + 32) else r
  else tbl r

/-- The function `strings.ToLower`. -/
def ToLower (tbl : Char → Char) (s : String) : String :=
  String.mk (s.data.map (unicodeToLower tbl))

/-- The function `strings.Join`. -/
def Join : List String → String → String
  | [], _ => ""
  | [a], _ => a
  | a :: b :: rest, sep => a ++ sep ++ Join (b :: rest) sep

/-- Pieces of a rune list cut at every occurrence of `sep`; `cur` is the piece
being read, last rune first. -/
def splitRunes (sep : Char) : List Char → List Char → List String
  | [], cur => [String.mk cur.reverse]
  | c :: cs, cur =>
    if c = sep then String.mk cur.reverse :: splitRunes sep cs []
    else splitRunes sep cs (c :: cur)

/-- The function `strings.Split` for a separator of one rune. -/
def Split (s : String) (sep : Char) : List String := splitRunes sep s.data []

/-- The predicate `shouldEscape(c, encodeQueryComponent)` of `net/url`: only
letters, digits and the marks `-`, `_`, `.`, `~` stay as they are. -/
def shouldEscape (c : Nat) : Bool :=
  if (97 ≤ c ∧ c ≤ 122) ∨ (65 ≤ c ∧ c ≤ 90) ∨ (48 ≤ c ∧ c ≤ 57) then false
  else if c = 45 ∨ c = 95 ∨ c = 46 ∨ c = 126 then false
  else true

/-- One uppercase hexadecimal digit (the table `upperhex` of `net/url`). -/
def upperhex (n : Nat) : Char := Char.ofNat (if n < 10 then 48 + n else 55 + n)

/-- What `url.QueryEscape` writes for one byte: a space becomes `+`, any other
escaped byte becomes `%XX`. -/
def escapeByte (c : Nat) : List Char :=
  if shouldEscape c then
    if c = 32 then [Char.ofNat 43] else [Char.ofNat 37, upperhex (c / 16), upperhex (c % 16)]
  else [Char.ofNat c]

/-- The function `url.QueryEscape`. -/
def QueryEscape (s : String) : String := String.mk ((bytes s).flatMap escapeByte)

/-- The verb `%d` of `fmt.Sprintf` on an integer. -/
def formatInt (i : Int) : String :=
  if i < 0 then "-" ++ Nat.repr i.natAbs else Nat.repr i.natAbs

/-- Lexicographic `<` on rune lists. -/
def lessRunes : List Char → List Char → Bool
  | _, [] => false
  | [], _ :: _ => true
  | a :: as, b :: bs => if a < b then true else if a = b then lessRunes as bs else false

/-- The operator `<` on Go strings: byte-wise lexicographic, which on valid
UTF-8 is the lexicographic order of the rune lists. -/
def less (a b : String) : Bool := lessRunes a.data b.data

/-- A `time.Time`: seconds since the Unix epoch and the nanosecond within the
second.  The int64 range is not modelled. -/
structure Time where
  sec : Int
  nsec : Nat
deriving DecidableEq

/-- The constant `time.Second`, a `Duration` in nanoseconds. -/
def Second : Int := 1000000000

/-- The method `Time.Unix`. -/
def Time.Unix (t : Time) : Int := t.sec

/-- The method `Time.Add`: whole seconds of `d` go to the seconds, the rest to
the nanoseconds, with a carry in either direction. -/
def Time.Add (t : Time) (d : Int) : Time :=
  let dsec := d.tdiv 1000000000
  let nsec := (t.nsec : Int) + d.tmod 1000000000
  if nsec ≥ 1000000000 then ⟨t.sec + (dsec + 1), (nsec - 1000000000).toNat⟩
  else if nsec < 0 then ⟨t.sec + (dsec - 1), (nsec + 1000000000).toNat⟩
  else ⟨t.sec + dsec, nsec.toNat⟩

/-! ## The data model of `cos.go` -/

/-- Source `Config`. -/
structure Config where
  AppId : String
  SecretId : String
  SecretKey : String
deriving DecidableEq

/-- Source `Bucket`. -/
structure Bucket where
  AppId : String
  Name : String
  Region : String
deriving DecidableEq

/-- Source `Bucket.Address`. -/
def Bucket.Address (b : Bucket) : String :=
  "https://" ++ b.Name ++ "-" ++ b.AppId ++ ".cos." ++ b.Region ++ ".myqcloud.com"

/-- Source `Client`: only the configuration matters here. -/
structure Client where
  cf : Config
deriving DecidableEq

/-- Source `NewClient`. -/
def NewClient (conf : Config) : Client := ⟨conf⟩

/-- The parts of an `http.Request` that `signRequest` reads: `Method`,
`URL.Path`, `URL.Query()` and `Header`, the two maps in visiting order. -/
structure Request where
  Method : String
  Path : String
  Query : List (String × List String)
  Header : List (String × List String)
deriving DecidableEq

/-- The local type `pair` of `signRequest`. -/
structure pair where
  key : String
  value : String
deriving DecidableEq

/-! ## `signRequest` -/

/-- Lines 67-69: one pair per query key, from `value[0]`, key and value lowercased. -/
def queryPairs (tbl : Char → Char) : List (String × List String) → Option (List pair)
  | [] => some []
  | (_, []) :: _ => none
  | (key, v :: _) :: rest =>
    (queryPairs tbl rest).map fun ps => ⟨ToLower tbl key, ToLower tbl v⟩ :: ps

/-- Lines 73-75: one pair per header key, from `value[0]`, key lowercased, value
query-escaped and then lowercased. -/
def headerPairs (tbl : Char → Char) : List (String × List String) → Option (List pair)
  | [] => some []
  | (_, []) :: _ => none
  | (key, v :: _) :: rest =>
    (headerPairs tbl rest).map fun ps => ⟨ToLower tbl key, ToLower tbl (QueryEscape v)⟩ :: ps

/-- Inner loop of the insertion sort behind `sort.Slice`: the new element moves
left while `less(j, j-1)`.  The sorted part is held last element first. -/
def insertLast (x : pair) : List pair → List pair
  | [] => [x]
  | y :: ys => if less x.key y.key then y :: insertLast x ys else x :: y :: ys

/-- Outer loop of the insertion sort: `acc` is the sorted part, last element first. -/
def insertAll : List pair → List pair → List pair
  | acc, [] => acc
  | acc, x :: xs => insertAll (insertLast x acc) xs

/-- Lines 70 and 76: `sort.Slice` with `less(i, j) = s[i].key < s[j].key`, as the
insertion sort that Go runs on slices of fewer than 12 elements.  On longer
slices Go switches algorithm; the result is the same whenever it is determined
by the keys, that is whenever no two keys are equal. -/
def sortSlice (l : List pair) : List pair := (insertAll [] l).reverse

/-- Lines 66-70: `sortedQuerys`. -/
def sortedQuerys (tbl : Char → Char) (req : Request) : Option (List pair) :=
  (queryPairs tbl req.Query).map sortSlice

/-- Lines 72-76: `sortedHeaders`. -/
def sortedHeaders (tbl : Char → Char) (req : Request) : Option (List pair) :=
  (headerPairs tbl req.Header).map sortSlice

/-- Lines 87 and 94: `p.key+"="+p.value`. -/
def render (p : pair) : String := p.key ++ "=" ++ p.value

/-- Line 90: the query segment, `strings.Join(s, "&")`. -/
def querySegment (qs : List pair) : String := Join (qs.map render) "&"

/-- Line 97: the header segment, `strings.Join(s, "&")`. -/
def headerSegment (hs : List pair) : String := Join (hs.map render) "&"

/-- Lines 88 and 112: `strings.Join(paramList, ";")`. -/
def paramList (qs : List pair) : String := Join (qs.map pair.key) ";"

/-- Lines 95 and 111: `strings.Join(headerList, ";")`. -/
def headerList (hs : List pair) : String := Join (hs.map pair.key) ";"

/-- Lines 83-97: `reqPayloadStr` from the request and the two sorted lists. -/
def payloadOf (tbl : Char → Char) (req : Request) (qs hs : List pair) : String :=
  ToLower tbl req.Method ++ "\n" ++ req.Path ++ "\n" ++ querySegment qs ++ "\n"
    ++ headerSegment hs ++ "\n"

/-- Lines 66-97: `reqPayloadStr`, the canonical request string. -/
def reqPayloadStr (tbl : Char → Char) (req : Request) : Option String :=
  match sortedQuerys tbl req with
  | none => none
  | some qs =>
    match sortedHeaders tbl req with
    | none => none
    | some hs => some (payloadOf tbl req qs hs)

/-- Line 101: `signTime`. -/
def signTime (now : Time) : String :=
  formatInt now.Unix ++ ";" ++ formatInt (now.Add (30 * Second)).Unix

/-- Line 102: `payloadStr`, the string to sign. -/
def payloadStr (st canon : String) : String :=
  "sha1\n" ++ st ++ "\n" ++ hashSHA1 (bytes canon) ++ "\n"

/-- Line 103: `signKey`. -/
def signKey (c : Client) (st : String) : String :=
  hashHMACSHA1 c.cf.SecretKey (bytes st)

/-- Line 104: `signature`. -/
def signature (c : Client) (st canon : String) : String :=
  hashHMACSHA1 (signKey c st) (bytes (payloadStr st canon))

/-- Lines 106-114: the map `m`, entries in the order of the literal. -/
def authMap (c : Client) (st hl pl sig : String) : List (String × String) :=
  [("q-sign-algorithm", "sha1"),
   ("q-ak", c.cf.SecretId),
   ("q-sign-time", st),
   ("q-key-time", st),
   ("q-header-list", hl),
   ("q-url-param-list", pl),
   ("q-signature", sig)]

/-- The seven keys of the map `m`. -/
def authKeys : List String :=
  ["q-sign-algorithm", "q-ak", "q-sign-time", "q-key-time", "q-header-list",
   "q-url-param-list", "q-signature"]

/-- The value `m[key]`; a missing key reads as the empty string. -/
def mapGet (m : List (String × String)) (key : String) : String :=
  match m with
  | [] => ""
  | (k, v) :: rest => if k = key then v else mapGet rest key

/-- Lines 115-118: `key+"="+value` for the keys of `m` in the order `mOrder` in
which `range m` visits them. -/
def authFields (m : List (String × String)) (mOrder : List String) : List String :=
  mOrder.map fun key => key ++ "=" ++ mapGet m key

/-- Lines 99-119 once both sorted lists exist. -/
def assemble (c : Client) (canon : String) (qs hs : List pair) (now : Time)
    (mOrder : List String) : String :=
  let st := signTime now
  Join (authFields (authMap c st (headerList hs) (paramList qs) (signature c st canon)) mOrder) "&"

/-- Source `Client.signRequest`.  `none` is the run-time panic of `value[0]` on
a key without values. -/
def signRequest (tbl : Char → Char) (c : Client) (req : Request) (now : Time)
    (mOrder : List String) : Option String :=
  match sortedQuerys tbl req with
  | none => none
  | some qs =>
    match sortedHeaders tbl req with
    | none => none
    | some hs => some (assemble c (payloadOf tbl req qs hs) qs hs now mOrder)

/-! ## `ListBuckets` -/

/-- The element `a[i]` of a slice; `none` is the index-out-of-range panic. -/
def index (a : List String) (i : Nat) : Option String := a.get? i

/-- Lines 183-189: the bucket built from one `//Buckets/Bucket` element, given
the inner texts of its `Name` and `Location` children. -/
def bucketOf (name location : String) : Option Bucket :=
  let a := Split name (Char.ofNat 45)
  match index a 0, index a 1 with
  | some a0, some a1 => some ⟨a1, a0, location⟩
  | _, _ => none

/-- Lines 181-191 of `Client.ListBuckets`: the loop over the listed elements,
each given as the texts of `Name` and `Location`. -/
def ListBuckets : List (String × String) → Option (List Bucket)
  | [] => some []
  | (name, location) :: rest =>
    match bucketOf name location with
    | none => none
    | some b => (ListBuckets rest).map fun bs => b :: bs

/-- The host label `<Name>-<AppId>` inside `Bucket.Address`. -/
def Bucket.fullName (b : Bucket) : String := b.Name ++ "-" ++ b.AppId

/-! ## Auxiliary definitions and sample inputs -/

/-- The pair that lines 67-69 build from one entry of the query map. -/
def queryPair (tbl : Char → Char) (kv : String × List String) : pair :=
  ⟨ToLower tbl kv.1, ToLower tbl (kv.2.headD "")⟩

/-- The pair that lines 73-75 build from one entry of the header map. -/
def headerPair (tbl : Char → Char) (kv : String × List String) : pair :=
  ⟨ToLower tbl kv.1, ToLower tbl (QueryEscape (kv.2.headD ""))⟩

/-- A case table that leaves every rune above U+007F unchanged. -/
def plainTable : Char → Char := fun r => r

/-- A client with non-empty credentials. -/
def sampleClient : Client := NewClient ⟨"1203324242", "AKID", "mykey"⟩

/-- The request `GET /` without query and without headers. -/
def bareRequest : Request := ⟨"GET", "/", [], []⟩

/-- A request with two query keys and two headers. -/
def sampleRequest : Request :=
  ⟨"GET", "/a/B", [("B", ["2"]), ("a", ["1"])],
    [("X-Meta", ["hello world"]), ("Host", ["h.example.com"])]⟩

/-- The request with every value list cut down to its first value. -/
def firstValues (req : Request) : Request :=
  ⟨req.Method, req.Path, req.Query.map (fun kv => (kv.1, kv.2.take 1)),
    req.Header.map (fun kv => (kv.1, kv.2.take 1))⟩

/-- A request whose keys carry several values. -/
def multiRequest : Request :=
  ⟨"GET", "/", [("key", ["1", "2"])], [("Accept", ["text/html", "text/plain"])]⟩

/-- Every rune of the string is at most U+007F. -/
def isASCII (s : String) : Bool := s.data.all fun r => decide (r.toNat ≤ 127)

/-- The method, the keys and the values that `signRequest` lowercases are ASCII. -/
def asciiRequest (req : Request) : Bool :=
  isASCII req.Method
    && req.Query.all (fun kv => isASCII kv.1 && isASCII (kv.2.headD ""))
    && req.Header.all (fun kv => isASCII kv.1 && isASCII (QueryEscape (kv.2.headD "")))

/-- The request `GET /` with the single header `X-Meta: hello world`. -/
def metaRequest : Request := ⟨"GET", "/", [], [("X-Meta", ["hello world"])]⟩

/-- A request with the value `hello world` both as a header and as a query value. -/
def spaceRequest : Request :=
  ⟨"GET", "/", [("q", ["hello world"])], [("X-Meta", ["hello world"])]⟩

/-- A request whose query map holds the keys `A` and `a`, visited in that order. -/
def clashRequest : Request := ⟨"GET", "/", [("A", ["1"]), ("a", ["2"])], []⟩

/-- The same request with the query map visited in the other order. -/
def clashRequestSwapped : Request := ⟨"GET", "/", [("a", ["2"]), ("A", ["1"])], []⟩

/-- The sample request with both maps visited in the other order. -/
def sampleRequestSwapped : Request :=
  ⟨"GET", "/a/B", [("a", ["1"]), ("B", ["2"])],
    [("Host", ["h.example.com"]), ("X-Meta", ["hello world"])]⟩

/-- A client whose SecretId is empty. -/
def emptyIdClient : Client := NewClient ⟨"1203324242", "", "mykey"⟩

/-- A client whose SecretKey is empty. -/
def emptyKeyClient : Client := NewClient ⟨"1203324242", "AKID", ""⟩

/-- A client with every credential empty. -/
def emptyClient : Client := NewClient ⟨"", "", ""⟩

/-! ## Order and sorting lemmas -/

theorem lessRunes_iff_lex (l₁ l₂ : List Char) :
    lessRunes l₁ l₂ = true ↔ List.Lex (· < ·) l₁ l₂ := by
  induction l₁ generalizing l₂ with
  | nil =>
    cases l₂ with
    | nil => simp [lessRunes, List.Lex.not_nil_right]
    | cons b bs => simp [lessRunes, List.Lex.nil]
  | cons a as ih =>
    cases l₂ with
    | nil => simp [lessRunes, List.Lex.not_nil_right]
    | cons b bs =>
      unfold lessRunes
      by_cases hab : a < b
      · simp [hab, List.Lex.rel hab]
      · by_cases he : a = b
        · subst he
          simp only [hab, if_false, if_true]
          rw [ih bs]
          exact List.Lex.cons_iff.symm
        · simp only [hab, he, if_false]
          constructor
          · intro h
            cases h
          · intro h
            cases h with
            | cons h => exact absurd rfl he
            | rel h => exact absurd h hab

theorem less_iff (a b : String) : less a b = true ↔ a < b := by
  unfold less
  rw [lessRunes_iff_lex, String.lt_iff_toList_lt]
  rfl

theorem insertLast_perm (x : pair) (l : List pair) : (insertLast x l).Perm (x :: l) := by
  induction l with
  | nil => simp [insertLast]
  | cons y ys ih =>
    unfold insertLast
    split
    · exact (List.Perm.cons y ih).trans (List.Perm.swap x y ys)
    · exact List.Perm.refl _

theorem insertAll_perm (acc l : List pair) : (insertAll acc l).Perm (l ++ acc) := by
  induction l generalizing acc with
  | nil => simp [insertAll]
  | cons x xs ih =>
    unfold insertAll
    refine (ih (insertLast x acc)).trans ?_
    refine (List.Perm.append_left xs (insertLast_perm x acc)).trans ?_
    simp

theorem sortSlice_perm (l : List pair) : (sortSlice l).Perm l := by
  unfold sortSlice
  refine (List.reverse_perm _).trans ?_
  simpa using insertAll_perm [] l

theorem insertLast_desc (x : pair) (l : List pair)
    (h : l.Pairwise (fun a b => b.key ≤ a.key)) :
    (insertLast x l).Pairwise (fun a b => b.key ≤ a.key) := by
  induction l with
  | nil => simp [insertLast]
  | cons y ys ih =>
    rw [List.pairwise_cons] at h
    unfold insertLast
    split
    · rename_i hlt
      rw [less_iff] at hlt
      rw [List.pairwise_cons]
      refine ⟨?_, ih h.2⟩
      intro z hz
      have hz' := (insertLast_perm x ys).mem_iff.mp hz
      rcases List.mem_cons.mp hz' with rfl | hzs
      · exact le_of_lt hlt
      · exact h.1 z hzs
    · rename_i hlt
      rw [less_iff] at hlt
      have hyx : y.key ≤ x.key := not_lt.mp hlt
      rw [List.pairwise_cons]
      refine ⟨?_, List.pairwise_cons.mpr h⟩
      intro z hz
      rcases List.mem_cons.mp hz with rfl | hz'
      · exact hyx
      · exact le_trans (h.1 z hz') hyx

theorem insertAll_desc (acc l : List pair)
    (h : acc.Pairwise (fun a b => b.key ≤ a.key)) :
    (insertAll acc l).Pairwise (fun a b => b.key ≤ a.key) := by
  induction l generalizing acc with
  | nil => simpa [insertAll] using h
  | cons x xs ih =>
    unfold insertAll
    exact ih _ (insertLast_desc x acc h)

theorem sortSlice_sorted (l : List pair) :
    (sortSlice l).Pairwise (fun a b => a.key ≤ b.key) := by
  unfold sortSlice
  rw [List.pairwise_reverse]
  exact insertAll_desc [] l List.Pairwise.nil

theorem sortSlice_unique (l₁ l₂ : List pair) (hp : l₁.Perm l₂)
    (hn : (l₂.map pair.key).Nodup) : sortSlice l₁ = sortSlice l₂ := by
  have hperm : (sortSlice l₁).Perm (sortSlice l₂) :=
    ((sortSlice_perm l₁).trans hp).trans (sortSlice_perm l₂).symm
  have strict : ∀ l : List pair, l.Perm l₂ →
      (sortSlice l).Pairwise (fun a b => a.key < b.key) := by
    intro l hl
    have hs := sortSlice_sorted l
    have hnod : ((sortSlice l).map pair.key).Nodup :=
      (((sortSlice_perm l).trans hl).map pair.key).nodup_iff.mpr hn
    rw [List.Nodup, List.pairwise_map] at hnod
    exact (hs.and hnod).imp (fun h => lt_of_le_of_ne h.1 h.2)
  haveI : IsAntisymm pair (fun a b => a.key < b.key) :=
    ⟨fun a b hab hba => absurd hab (lt_asymm hba)⟩
  exact List.eq_of_perm_of_sorted hperm (strict l₁ hp) (strict l₂ (List.Perm.refl _))

/-! ## The two collection loops -/

theorem queryPairs_eq (tbl : Char → Char) (q : List (String × List String))
    (h : ∀ kv ∈ q, kv.2 ≠ []) : queryPairs tbl q = some (q.map (queryPair tbl)) := by
  induction q with
  | nil => rfl
  | cons kv rest ih =>
    obtain ⟨k, vs⟩ := kv
    cases vs with
    | nil => exact absurd rfl (h (k, []) (List.mem_cons_self _ _))
    | cons v vs =>
      have ih' := ih (fun kv hkv => h kv (List.mem_cons_of_mem _ hkv))
      simp [queryPairs, ih', queryPair]

theorem headerPairs_eq (tbl : Char → Char) (q : List (String × List String))
    (h : ∀ kv ∈ q, kv.2 ≠ []) : headerPairs tbl q = some (q.map (headerPair tbl)) := by
  induction q with
  | nil => rfl
  | cons kv rest ih =>
    obtain ⟨k, vs⟩ := kv
    cases vs with
    | nil => exact absurd rfl (h (k, []) (List.mem_cons_self _ _))
    | cons v vs =>
      have ih' := ih (fun kv hkv => h kv (List.mem_cons_of_mem _ hkv))
      simp [headerPairs, ih', headerPair]

theorem queryPairs_none (tbl : Char → Char) (q : List (String × List String))
    (h : ∃ kv ∈ q, kv.2 = []) : queryPairs tbl q = none := by
  induction q with
  | nil => simp at h
  | cons kv rest ih =>
    obtain ⟨k, vs⟩ := kv
    cases vs with
    | nil => rfl
    | cons v vs =>
      have : ∃ kv ∈ rest, kv.2 = [] := by
        obtain ⟨kv, hkv, he⟩ := h
        rcases List.mem_cons.mp hkv with rfl | hr
        · simp at he
        · exact ⟨kv, hr, he⟩
      simp [queryPairs, ih this]

theorem headerPairs_none (tbl : Char → Char) (q : List (String × List String))
    (h : ∃ kv ∈ q, kv.2 = []) : headerPairs tbl q = none := by
  induction q with
  | nil => simp at h
  | cons kv rest ih =>
    obtain ⟨k, vs⟩ := kv
    cases vs with
    | nil => rfl
    | cons v vs =>
      have : ∃ kv ∈ rest, kv.2 = [] := by
        obtain ⟨kv, hkv, he⟩ := h
        rcases List.mem_cons.mp hkv with rfl | hr
        · simp at he
        · exact ⟨kv, hr, he⟩
      simp [headerPairs, ih this]

theorem signRequest_eq (tbl : Char → Char) (c : Client) (req : Request) (now : Time)
    (mOrder : List String) (hq : ∀ kv ∈ req.Query, kv.2 ≠ [])
    (hh : ∀ kv ∈ req.Header, kv.2 ≠ []) :
    sortedQuerys tbl req = some (sortSlice (req.Query.map (queryPair tbl))) ∧
    sortedHeaders tbl req = some (sortSlice (req.Header.map (headerPair tbl))) ∧
    reqPayloadStr tbl req = some (payloadOf tbl req
      (sortSlice (req.Query.map (queryPair tbl))) (sortSlice (req.Header.map (headerPair tbl)))) ∧
    signRequest tbl c req now mOrder = some (assemble c
      (payloadOf tbl req (sortSlice (req.Query.map (queryPair tbl)))
        (sortSlice (req.Header.map (headerPair tbl))))
      (sortSlice (req.Query.map (queryPair tbl))) (sortSlice (req.Header.map (headerPair tbl)))
      now mOrder) := by
  have h1 : sortedQuerys tbl req = some (sortSlice (req.Query.map (queryPair tbl))) := by
    simp [sortedQuerys, queryPairs_eq tbl req.Query hq]
  have h2 : sortedHeaders tbl req = some (sortSlice (req.Header.map (headerPair tbl))) := by
    simp [sortedHeaders, headerPairs_eq tbl req.Header hh]
  refine ⟨h1, h2, ?_, ?_⟩
  · simp [reqPayloadStr, h1, h2]
  · simp [signRequest, h1, h2]

/-! ## The signing window -/

theorem signTime_of_valid (now : Time) (h : now.nsec < 1000000000) :
    signTime now = formatInt now.sec ++ ";" ++ formatInt (now.sec + 30) := by
  have hd : (30 * Second).tdiv 1000000000 = 30 := by decide
  have hm : (30 * Second).tmod 1000000000 = 0 := by decide
  have h1 : ¬ ((now.nsec : Int) + 0 ≥ 1000000000) := by omega
  have h2 : ¬ ((now.nsec : Int) + 0 < 0) := by omega
  simp only [signTime, Time.Add, Time.Unix, hd, hm, h1, h2, if_false]

/-! ## The seven-field map -/

theorem mapGet_authMap (c : Client) (st hl pl sig : String) :
    mapGet (authMap c st hl pl sig) "q-sign-algorithm" = "sha1" ∧
    mapGet (authMap c st hl pl sig) "q-ak" = c.cf.SecretId ∧
    mapGet (authMap c st hl pl sig) "q-sign-time" = st ∧
    mapGet (authMap c st hl pl sig) "q-key-time" = st ∧
    mapGet (authMap c st hl pl sig) "q-header-list" = hl ∧
    mapGet (authMap c st hl pl sig) "q-url-param-list" = pl ∧
    mapGet (authMap c st hl pl sig) "q-signature" = sig :=
  ⟨rfl, rfl, rfl, rfl, rfl, rfl, rfl⟩

theorem authFields_authKeys (c : Client) (st hl pl sig : String) :
    authFields (authMap c st hl pl sig) authKeys =
      ["q-sign-algorithm=" ++ "sha1", "q-ak=" ++ c.cf.SecretId, "q-sign-time=" ++ st,
       "q-key-time=" ++ st, "q-header-list=" ++ hl, "q-url-param-list=" ++ pl,
       "q-signature=" ++ sig] := rfl

theorem authFields_perm (m : List (String × String)) (o₁ o₂ : List String) (h : o₁.Perm o₂) :
    (authFields m o₁).Perm (authFields m o₂) :=
  h.map _

/-! ## Only the first value of a key is read -/

theorem queryPairs_take (tbl : Char → Char) (q : List (String × List String)) :
    queryPairs tbl (q.map fun kv => (kv.1, kv.2.take 1)) = queryPairs tbl q := by
  induction q with
  | nil => rfl
  | cons kv rest ih =>
    obtain ⟨k, vs⟩ := kv
    cases vs with
    | nil => rfl
    | cons v vs =>
      simp only [List.map_cons, List.take_succ_cons, queryPairs]
      rw [ih]

theorem headerPairs_take (tbl : Char → Char) (q : List (String × List String)) :
    headerPairs tbl (q.map fun kv => (kv.1, kv.2.take 1)) = headerPairs tbl q := by
  induction q with
  | nil => rfl
  | cons kv rest ih =>
    obtain ⟨k, vs⟩ := kv
    cases vs with
    | nil => rfl
    | cons v vs =>
      simp only [List.map_cons, List.take_succ_cons, headerPairs]
      rw [ih]

theorem signRequest_firstValues (tbl : Char → Char) (c : Client) (req : Request)
    (now : Time) (mOrder : List String) :
    reqPayloadStr tbl (firstValues req) = reqPayloadStr tbl req ∧
    signRequest tbl c (firstValues req) now mOrder = signRequest tbl c req now mOrder := by
  have h1 : sortedQuerys tbl (firstValues req) = sortedQuerys tbl req := by
    simp only [sortedQuerys, firstValues, queryPairs_take]
  have h2 : sortedHeaders tbl (firstValues req) = sortedHeaders tbl req := by
    simp only [sortedHeaders, firstValues, headerPairs_take]
  constructor
  · simp only [reqPayloadStr, h1, h2]
    rfl
  · simp only [signRequest, h1, h2]
    rfl

/-! ## Requests made of ASCII only -/

theorem ToLower_ascii (t₁ t₂ : Char → Char) (s : String) (h : isASCII s = true) :
    ToLower t₁ s = ToLower t₂ s := by
  unfold ToLower
  congr 1
  apply List.map_congr_left
  intro r hr
  have : r.toNat ≤ 127 := by
    have := List.all_eq_true.mp h r hr
    simpa using this
  simp [unicodeToLower, this]

theorem queryPairs_ascii (t₁ t₂ : Char → Char) (q : List (String × List String))
    (h : q.all (fun kv => isASCII kv.1 && isASCII (kv.2.headD "")) = true) :
    queryPairs t₁ q = queryPairs t₂ q := by
  induction q with
  | nil => rfl
  | cons kv rest ih =>
    obtain ⟨k, vs⟩ := kv
    cases vs with
    | nil => rfl
    | cons v vs =>
      simp only [List.all_cons, Bool.and_eq_true, List.headD_cons] at h
      simp only [queryPairs]
      rw [ih h.2, ToLower_ascii t₁ t₂ k h.1.1, ToLower_ascii t₁ t₂ v h.1.2]

theorem headerPairs_ascii (t₁ t₂ : Char → Char) (q : List (String × List String))
    (h : q.all (fun kv => isASCII kv.1 && isASCII (QueryEscape (kv.2.headD ""))) = true) :
    headerPairs t₁ q = headerPairs t₂ q := by
  induction q with
  | nil => rfl
  | cons kv rest ih =>
    obtain ⟨k, vs⟩ := kv
    cases vs with
    | nil => rfl
    | cons v vs =>
      simp only [List.all_cons, Bool.and_eq_true, List.headD_cons] at h
      simp only [headerPairs]
      rw [ih h.2, ToLower_ascii t₁ t₂ k h.1.1, ToLower_ascii t₁ t₂ (QueryEscape v) h.1.2]

theorem signRequest_ascii (t₁ t₂ : Char → Char) (c : Client) (req : Request) (now : Time)
    (mOrder : List String) (h : asciiRequest req = true) :
    signRequest t₁ c req now mOrder = signRequest t₂ c req now mOrder := by
  simp only [asciiRequest, Bool.and_eq_true] at h
  obtain ⟨⟨hm, hq⟩, hh⟩ := h
  simp only [signRequest, sortedQuerys, sortedHeaders, payloadOf,
    queryPairs_ascii t₁ t₂ req.Query hq, headerPairs_ascii t₁ t₂ req.Header hh,
    ToLower_ascii t₁ t₂ req.Method hm]

/-! ## `strings.Join` -/

theorem mem_Join_sub (l : List String) (sep x : String) (h : x ∈ l) :
    x.data <:+: (Join l sep).data := by
  induction l with
  | nil => simp at h
  | cons a rest ih =>
    cases rest with
    | nil =>
      have : x = a := by simpa using h
      subst this
      exact List.infix_refl _
    | cons b rest =>
      have hj : (Join (a :: b :: rest) sep).data
          = a.data ++ (sep.data ++ (Join (b :: rest) sep).data) := by
        simp [Join, String.data_append]
      rw [hj]
      rcases List.mem_cons.mp h with rfl | h'
      · exact (List.prefix_append _ _).isInfix
      · exact (ih h').trans
          (((List.suffix_append _ _).isInfix).trans (List.suffix_append _ _).isInfix)

/-! ## Claims -/

/-- C1: the q-signature field that `signRequest` returns is the lowercase hex of
HMAC-SHA1 keyed by the bytes of the hex string of HMAC-SHA1(SecretKey, signTime),
over the string `"sha1\n" + signTime + "\n" + hex(SHA1(canonical)) + "\n"`; for
`GET /` without query and headers at second 0 that string is `"sha1\n0;30\n"`
followed by the SHA-1 hex of `"get\n/\n\n\n"` and a newline. -/
theorem signRequest_signature_chain (tbl : Char → Char) (c : Client) (req : Request)
    (now : Time) (mOrder : List String)
    (hq : ∀ kv ∈ req.Query, kv.2 ≠ []) (hh : ∀ kv ∈ req.Header, kv.2 ≠ [])
    (hm : mOrder.Perm authKeys) :
    (∃ canon fields,
      reqPayloadStr tbl req = some canon ∧
      signRequest tbl c req now mOrder = some (Join fields "&") ∧
      ("q-signature=" ++ hexEncode (hmacSHA1
          (bytes (hexEncode (hmacSHA1 (bytes c.cf.SecretKey) (bytes (signTime now)))))
          (bytes ("sha1\n" ++ signTime now ++ "\n" ++ hexEncode (sha1Sum (bytes canon))
            ++ "\n")))) ∈ fields) ∧
    reqPayloadStr tbl bareRequest = some "get\n/\n\n\n" ∧
    (∀ t : Time, t.Unix = 0 → t.nsec < 1000000000 →
      payloadStr (signTime t) "get\n/\n\n\n"
        = "sha1\n0;30\n" ++ hexEncode (sha1Sum (bytes "get\n/\n\n\n")) ++ "\n") ∧
    hexEncode (sha1Sum (bytes "get\n/\n\n\n")) = "fe7958cba276b6f027f5ccb3acaaf32bb1f77d04" := by
  refine ⟨?_, rfl, ?_, by decide!⟩
  · obtain ⟨_, _, h3, h4⟩ := signRequest_eq tbl c req now mOrder hq hh
    refine ⟨_, _, h3, h4, ?_⟩
    have hmem : "q-signature" ∈ mOrder := hm.mem_iff.mpr (by simp [authKeys])
    have := List.mem_map_of_mem (fun key => key ++ "=" ++
      mapGet (authMap c (signTime now)
        (headerList (sortSlice (req.Header.map (headerPair tbl))))
        (paramList (sortSlice (req.Query.map (queryPair tbl))))
        (signature c (signTime now) (payloadOf tbl req
          (sortSlice (req.Query.map (queryPair tbl)))
          (sortSlice (req.Header.map (headerPair tbl)))))) key) hmem
    exact this
  · intro t h0 hn
    have hs : signTime t = "0;30" := by
      rw [signTime_of_valid t hn]
      have : t.sec = 0 := h0
      rw [this]
      rfl
    rw [hs]
    rfl

/-- Witness for C1 at the sample request and the literal order of the map. -/
theorem signRequest_signature_chain_witness :
    (∀ kv ∈ sampleRequest.Query, kv.2 ≠ []) ∧ (∀ kv ∈ sampleRequest.Header, kv.2 ≠ []) ∧
    authKeys.Perm authKeys ∧
    ∃ canon fields,
      reqPayloadStr plainTable sampleRequest = some canon ∧
      signRequest plainTable sampleClient sampleRequest ⟨1000, 5⟩ authKeys
        = some (Join fields "&") ∧
      ("q-signature=" ++ hexEncode (hmacSHA1
          (bytes (hexEncode (hmacSHA1 (bytes sampleClient.cf.SecretKey)
            (bytes (signTime ⟨1000, 5⟩)))))
          (bytes ("sha1\n" ++ signTime ⟨1000, 5⟩ ++ "\n" ++ hexEncode (sha1Sum (bytes canon))
            ++ "\n")))) ∈ fields :=
  ⟨by decide, by decide, List.Perm.refl _,
    (signRequest_signature_chain plainTable sampleClient sampleRequest ⟨1000, 5⟩ authKeys
      (by decide) (by decide) (List.Perm.refl _)).1⟩

/-- C2: the string that `signRequest` hashes is the lowercased method, the path
as it is, the query segment and the header segment, each followed by a newline;
an empty query or header map gives an empty segment with its newline, so
`GET /` without query and headers gives `"get\n/\n\n\n"`. -/
theorem reqPayloadStr_layout (tbl : Char → Char) (c : Client) (req : Request)
    (now : Time) (mOrder : List String)
    (hq : ∀ kv ∈ req.Query, kv.2 ≠ []) (hh : ∀ kv ∈ req.Header, kv.2 ≠ []) :
    (∃ qs hs canon,
      sortedQuerys tbl req = some qs ∧ sortedHeaders tbl req = some hs ∧
      canon = ToLower tbl req.Method ++ "\n" ++ req.Path ++ "\n" ++ querySegment qs ++ "\n"
        ++ headerSegment hs ++ "\n" ∧
      reqPayloadStr tbl req = some canon ∧
      signRequest tbl c req now mOrder = some (Join (authFields
        (authMap c (signTime now) (headerList hs) (paramList qs)
          (hashHMACSHA1 (signKey c (signTime now))
            (bytes ("sha1\n" ++ signTime now ++ "\n" ++ hashSHA1 (bytes canon) ++ "\n"))))
        mOrder) "&") ∧
      (req.Query = [] → querySegment qs = "") ∧
      (req.Header = [] → headerSegment hs = "")) ∧
    reqPayloadStr tbl bareRequest = some "get\n/\n\n\n" := by
  refine ⟨?_, rfl⟩
  obtain ⟨h1, h2, h3, h4⟩ := signRequest_eq tbl c req now mOrder hq hh
  refine ⟨_, _, _, h1, h2, rfl, h3, h4, ?_, ?_⟩
  · intro h
    rw [h]
    rfl
  · intro h
    rw [h]
    rfl

/-- Witness for C2 at the sample request. -/
theorem reqPayloadStr_layout_witness :
    (∀ kv ∈ sampleRequest.Query, kv.2 ≠ []) ∧ (∀ kv ∈ sampleRequest.Header, kv.2 ≠ []) ∧
    reqPayloadStr plainTable sampleRequest
      = some "get\n/a/B\na=1&b=2\nhost=h.example.com&x-meta=hello+world\n" ∧
    ∃ qs hs canon,
      sortedQuerys plainTable sampleRequest = some qs ∧
      sortedHeaders plainTable sampleRequest = some hs ∧
      canon = ToLower plainTable sampleRequest.Method ++ "\n" ++ sampleRequest.Path ++ "\n"
        ++ querySegment qs ++ "\n" ++ headerSegment hs ++ "\n" ∧
      reqPayloadStr plainTable sampleRequest = some canon :=
  ⟨by decide, by decide, by decide,
    match (reqPayloadStr_layout plainTable sampleClient sampleRequest ⟨1000, 5⟩ authKeys
      (by decide) (by decide)).1 with
    | ⟨qs, hs, canon, h1, h2, h3, h4, _⟩ => ⟨qs, hs, canon, h1, h2, h3, h4⟩⟩

/-- C3: the query segment and the header segment are the `key=value` renderings,
joined by `&`, of one pair per map entry with the key lowercased (and the query
value lowercased), each list sorted on its own in ascending order of the
lowercased key; the query keys `B: "2"`, `a: "1"` give `a=1&b=2` in either
visiting order of the map. -/
theorem segments_sorted_lowercase (tbl : Char → Char) (req : Request)
    (hq : ∀ kv ∈ req.Query, kv.2 ≠ []) (hh : ∀ kv ∈ req.Header, kv.2 ≠ []) :
    (∃ qs hs,
      sortedQuerys tbl req = some qs ∧ sortedHeaders tbl req = some hs ∧
      reqPayloadStr tbl req = some (ToLower tbl req.Method ++ "\n" ++ req.Path ++ "\n"
        ++ Join (qs.map fun p => p.key ++ "=" ++ p.value) "&" ++ "\n"
        ++ Join (hs.map fun p => p.key ++ "=" ++ p.value) "&" ++ "\n") ∧
      qs.Perm (req.Query.map fun kv => ⟨ToLower tbl kv.1, ToLower tbl (kv.2.headD "")⟩) ∧
      hs.Perm (req.Header.map fun kv =>
        ⟨ToLower tbl kv.1, ToLower tbl (QueryEscape (kv.2.headD ""))⟩) ∧
      qs.Pairwise (fun a b => a.key ≤ b.key) ∧
      hs.Pairwise (fun a b => a.key ≤ b.key)) ∧
    (∀ a b : String, a ≤ b ↔ ¬ List.Lex (· < ·) b.data a.data) ∧
    (∀ m p, sortedQuerys tbl ⟨m, p, [("B", ["2"]), ("a", ["1"])], []⟩
        = some [⟨"a", "1"⟩, ⟨"b", "2"⟩] ∧
      sortedQuerys tbl ⟨m, p, [("a", ["1"]), ("B", ["2"])], []⟩
        = some [⟨"a", "1"⟩, ⟨"b", "2"⟩]) ∧
    querySegment [⟨"a", "1"⟩, ⟨"b", "2"⟩] = "a=1&b=2" := by
  refine ⟨?_, ?_, fun _ _ => ⟨rfl, rfl⟩, by decide⟩
  · obtain ⟨h1, h2, h3, _⟩ := signRequest_eq tbl sampleClient req ⟨0, 0⟩ [] hq hh
    exact ⟨_, _, h1, h2, h3, sortSlice_perm _, sortSlice_perm _, sortSlice_sorted _,
      sortSlice_sorted _⟩
  · intro a b
    rw [← not_lt, String.lt_iff_toList_lt]
    rfl

/-- Witness for C3 at the sample request. -/
theorem segments_sorted_lowercase_witness :
    (∀ kv ∈ sampleRequest.Query, kv.2 ≠ []) ∧ (∀ kv ∈ sampleRequest.Header, kv.2 ≠ []) ∧
    sortedQuerys plainTable sampleRequest = some [⟨"a", "1"⟩, ⟨"b", "2"⟩] ∧
    sortedHeaders plainTable sampleRequest
      = some [⟨"host", "h.example.com"⟩, ⟨"x-meta", "hello+world"⟩] ∧
    ∃ qs hs,
      sortedQuerys plainTable sampleRequest = some qs ∧
      sortedHeaders plainTable sampleRequest = some hs ∧
      qs.Pairwise (fun a b => a.key ≤ b.key) ∧ hs.Pairwise (fun a b => a.key ≤ b.key) :=
  ⟨by decide, by decide, by decide, by decide,
    match (segments_sorted_lowercase plainTable sampleRequest (by decide) (by decide)).1 with
    | ⟨qs, hs, h1, h2, _, _, _, h6, h7⟩ => ⟨qs, hs, h1, h2, h6, h7⟩⟩

/-- C5: the string returned by `signRequest` is the `&`-join of seven fields,
which are, in the order the map is visited, exactly
`q-sign-algorithm=sha1`, `q-ak=<SecretId>`, `q-sign-time=<signTime>`,
`q-key-time=<signTime>`, `q-header-list=<keys>`, `q-url-param-list=<keys>` and
`q-signature=<signature>`, the two key lists being the `;`-joined lowercased keys
of the same sorted lists that make the header and query segments. -/
theorem signRequest_seven_fields (tbl : Char → Char) (c : Client) (req : Request)
    (now : Time) (mOrder : List String)
    (hq : ∀ kv ∈ req.Query, kv.2 ≠ []) (hh : ∀ kv ∈ req.Header, kv.2 ≠ [])
    (hm : mOrder.Perm authKeys) :
    ∃ qs hs canon fields,
      sortedQuerys tbl req = some qs ∧ sortedHeaders tbl req = some hs ∧
      reqPayloadStr tbl req = some canon ∧
      canon = ToLower tbl req.Method ++ "\n" ++ req.Path ++ "\n"
        ++ Join (qs.map fun p => p.key ++ "=" ++ p.value) "&" ++ "\n"
        ++ Join (hs.map fun p => p.key ++ "=" ++ p.value) "&" ++ "\n" ∧
      (qs.map pair.key).Perm (req.Query.map fun kv => ToLower tbl kv.1) ∧
      (hs.map pair.key).Perm (req.Header.map fun kv => ToLower tbl kv.1) ∧
      signRequest tbl c req now mOrder = some (Join fields "&") ∧
      fields.length = 7 ∧
      fields = mOrder.map (fun key => key ++ "=" ++ mapGet
        [("q-sign-algorithm", "sha1"), ("q-ak", c.cf.SecretId),
         ("q-sign-time", signTime now), ("q-key-time", signTime now),
         ("q-header-list", Join (hs.map pair.key) ";"),
         ("q-url-param-list", Join (qs.map pair.key) ";"),
         ("q-signature", signature c (signTime now) canon)] key) ∧
      fields.Perm
        ["q-sign-algorithm=" ++ "sha1", "q-ak=" ++ c.cf.SecretId,
         "q-sign-time=" ++ signTime now, "q-key-time=" ++ signTime now,
         "q-header-list=" ++ Join (hs.map pair.key) ";",
         "q-url-param-list=" ++ Join (qs.map pair.key) ";",
         "q-signature=" ++ signature c (signTime now) canon] := by
  obtain ⟨h1, h2, h3, h4⟩ := signRequest_eq tbl c req now mOrder hq hh
  refine ⟨_, _, _, _, h1, h2, h3, rfl, ?_, ?_, h4, ?_, rfl, ?_⟩
  · have := (sortSlice_perm (req.Query.map (queryPair tbl))).map pair.key
    simpa [queryPair, Function.comp_def] using this
  · have := (sortSlice_perm (req.Header.map (headerPair tbl))).map pair.key
    simpa [headerPair, Function.comp_def] using this
  · simp only [authFields, List.length_map]
    rw [hm.length_eq]
    rfl
  · exact (authFields_perm _ _ _ hm).trans (by rw [authFields_authKeys]; rfl)

/-- Witness for C5 at the sample request, the map visited in reverse literal order. -/
theorem signRequest_seven_fields_witness :
    (∀ kv ∈ sampleRequest.Query, kv.2 ≠ []) ∧ (∀ kv ∈ sampleRequest.Header, kv.2 ≠ []) ∧
    authKeys.reverse.Perm authKeys ∧
    ∃ qs hs canon fields,
      sortedQuerys plainTable sampleRequest = some qs ∧
      sortedHeaders plainTable sampleRequest = some hs ∧
      reqPayloadStr plainTable sampleRequest = some canon ∧
      signRequest plainTable sampleClient sampleRequest ⟨1000, 5⟩ authKeys.reverse
        = some (Join fields "&") ∧
      fields.length = 7 ∧
      fields.Perm
        ["q-sign-algorithm=" ++ "sha1", "q-ak=" ++ sampleClient.cf.SecretId,
         "q-sign-time=" ++ signTime ⟨1000, 5⟩, "q-key-time=" ++ signTime ⟨1000, 5⟩,
         "q-header-list=" ++ Join (hs.map pair.key) ";",
         "q-url-param-list=" ++ Join (qs.map pair.key) ";",
         "q-signature=" ++ signature sampleClient (signTime ⟨1000, 5⟩) canon] :=
  ⟨by decide, by decide, List.reverse_perm _,
    match signRequest_seven_fields plainTable sampleClient sampleRequest ⟨1000, 5⟩
      authKeys.reverse (by decide) (by decide) (List.reverse_perm _) with
    | ⟨qs, hs, canon, fields, h1, h2, h3, _, _, _, h7, h8, _, h10⟩ =>
      ⟨qs, hs, canon, fields, h1, h2, h3, h7, h8, h10⟩⟩

/-- C6: when every query key and header key has a value, `signRequest` returns a
string, built from the first value of each key only: the canonical pairs carry
`value[0]`, and both the canonical string and the returned string are the same
as for the request with every value list cut down to its first value; the query
`key=1&key=2` gives the single pair `key=1`. -/
theorem signRequest_first_value_only (tbl : Char → Char) (c : Client) (req : Request)
    (now : Time) (mOrder : List String)
    (hq : ∀ kv ∈ req.Query, kv.2 ≠ []) (hh : ∀ kv ∈ req.Header, kv.2 ≠ []) :
    (∃ canon out,
      reqPayloadStr tbl req = some canon ∧ signRequest tbl c req now mOrder = some out ∧
      reqPayloadStr tbl (firstValues req) = some canon ∧
      signRequest tbl c (firstValues req) now mOrder = some out ∧
      sortedQuerys tbl req = some (sortSlice (req.Query.map fun kv =>
        ⟨ToLower tbl kv.1, ToLower tbl (kv.2.headD "")⟩)) ∧
      sortedHeaders tbl req = some (sortSlice (req.Header.map fun kv =>
        ⟨ToLower tbl kv.1, ToLower tbl (QueryEscape (kv.2.headD ""))⟩))) ∧
    (∀ m p h, sortedQuerys tbl ⟨m, p, [("key", ["1", "2"])], h⟩ = some [⟨"key", "1"⟩]) ∧
    reqPayloadStr tbl ⟨"GET", "/", [("key", ["1", "2"])], []⟩ = some "get\n/\nkey=1\n\n" := by
  refine ⟨?_, fun _ _ _ => rfl, rfl⟩
  obtain ⟨h1, h2, h3, h4⟩ := signRequest_eq tbl c req now mOrder hq hh
  obtain ⟨h5, h6⟩ := signRequest_firstValues tbl c req now mOrder
  exact ⟨_, _, h3, h4, h5.trans h3, h6.trans h4, h1, h2⟩

/-- Witness for C6 at a request whose keys carry several values. -/
theorem signRequest_first_value_only_witness :
    (∀ kv ∈ multiRequest.Query, kv.2 ≠ []) ∧ (∀ kv ∈ multiRequest.Header, kv.2 ≠ []) ∧
    reqPayloadStr plainTable multiRequest = some "get\n/\nkey=1\naccept=text%2fhtml\n" ∧
    ∃ canon out,
      reqPayloadStr plainTable multiRequest = some canon ∧
      signRequest plainTable sampleClient multiRequest ⟨1000, 5⟩ authKeys = some out ∧
      reqPayloadStr plainTable (firstValues multiRequest) = some canon ∧
      signRequest plainTable sampleClient (firstValues multiRequest) ⟨1000, 5⟩ authKeys
        = some out :=
  ⟨by decide, by decide, by decide,
    match (signRequest_first_value_only plainTable sampleClient multiRequest ⟨1000, 5⟩
      authKeys (by decide) (by decide)).1 with
    | ⟨canon, out, h1, h2, h3, h4, _⟩ => ⟨canon, out, h1, h2, h3, h4⟩⟩

/-- C8: the sign-time string is the decimal rendering of the Unix second of the
signing instant, one `;`, and the decimal rendering of that second plus 30; at
second 1000 it is `"1000;1030"`. -/
theorem signTime_window (now : Time) (h : now.nsec < 1000000000) :
    signTime now = formatInt now.Unix ++ ";" ++ formatInt (now.Unix + 30) ∧
    (now.Add (30 * Second)).Unix = now.Unix + 30 ∧
    (now.Unix = 1000 → signTime now = "1000;1030") := by
  have hs := signTime_of_valid now h
  refine ⟨hs, ?_, ?_⟩
  · have hd : (30 * Second).tdiv 1000000000 = 30 := by decide
    have hm : (30 * Second).tmod 1000000000 = 0 := by decide
    have h1 : ¬ ((now.nsec : Int) + 0 ≥ 1000000000) := by omega
    have h2 : ¬ ((now.nsec : Int) + 0 < 0) := by omega
    simp only [Time.Add, Time.Unix, hd, hm, h1, h2, if_false]
  · intro h0
    have : now.sec = 1000 := h0
    rw [hs, this]
    rfl

/-- Witness for C8 at second 1000, nanosecond 999999999. -/
theorem signTime_window_witness :
    (999999999 : Nat) < 1000000000 ∧ signTime ⟨1000, 999999999⟩ = "1000;1030" :=
  ⟨by decide, (signTime_window ⟨1000, 999999999⟩ (by decide)).2.2 rfl⟩

/-- C4, as stated, fails: for the header `X-Meta: hello world` the header segment
is `x-meta=hello+world`, and `x-meta=hello%20world` occurs nowhere in the
canonical string, whatever the case table. -/
theorem header_space_is_plus :
    (∀ tbl, sortedHeaders tbl metaRequest = some [⟨"x-meta", "hello+world"⟩]) ∧
    headerSegment [⟨"x-meta", "hello+world"⟩] = "x-meta=hello+world" ∧
    (∀ tbl, reqPayloadStr tbl metaRequest = some "get\n/\n\nx-meta=hello+world\n") ∧
    ¬ ("x-meta=hello%20world".data <:+: "get\n/\n\nx-meta=hello+world\n".data) :=
  ⟨fun _ => rfl, by decide, fun _ => rfl, by decide⟩

/-- C4, amended: a header value is query-escaped (a space becomes `+`, every
byte other than a letter, a digit, `-`, `_`, `.`, `~` becomes `%XX`) and then
lowercased, a query value is only lowercased; with the header
`X-Meta: hello world` the header segment contains `x-meta=hello+world`, and a
query value `hello world` appears in the query segment with its space. -/
theorem header_escaped_query_plain (tbl : Char → Char) (req : Request)
    (hq : ∀ kv ∈ req.Query, kv.2 ≠ []) (hh : ∀ kv ∈ req.Header, kv.2 ≠ []) :
    ∃ qs hs,
      sortedQuerys tbl req = some qs ∧ sortedHeaders tbl req = some hs ∧
      reqPayloadStr tbl req = some (ToLower tbl req.Method ++ "\n" ++ req.Path ++ "\n"
        ++ querySegment qs ++ "\n" ++ headerSegment hs ++ "\n") ∧
      (∀ k v vs, (k, v :: vs) ∈ req.Header →
        (⟨ToLower tbl k, ToLower tbl (QueryEscape v)⟩ : pair) ∈ hs) ∧
      (∀ k v vs, (k, v :: vs) ∈ req.Query →
        (⟨ToLower tbl k, ToLower tbl v⟩ : pair) ∈ qs) ∧
      (∀ vs, ("X-Meta", "hello world" :: vs) ∈ req.Header →
        "x-meta=hello+world" ∈ hs.map render ∧
        "x-meta=hello+world".data <:+: (headerSegment hs).data) ∧
      (∀ k vs, (k, "hello world" :: vs) ∈ req.Query →
        (ToLower tbl k ++ "=hello world") ∈ qs.map render ∧
        (ToLower tbl k ++ "=hello world").data <:+: (querySegment qs).data) := by
  obtain ⟨h1, h2, h3, _⟩ := signRequest_eq tbl sampleClient req ⟨0, 0⟩ [] hq hh
  have hH : ∀ k v vs, (k, v :: vs) ∈ req.Header →
      (⟨ToLower tbl k, ToLower tbl (QueryEscape v)⟩ : pair)
        ∈ sortSlice (req.Header.map (headerPair tbl)) := by
    intro k v vs hmem
    exact (sortSlice_perm _).mem_iff.mpr (List.mem_map_of_mem (headerPair tbl) hmem)
  have hQ : ∀ k v vs, (k, v :: vs) ∈ req.Query →
      (⟨ToLower tbl k, ToLower tbl v⟩ : pair)
        ∈ sortSlice (req.Query.map (queryPair tbl)) := by
    intro k v vs hmem
    exact (sortSlice_perm _).mem_iff.mpr (List.mem_map_of_mem (queryPair tbl) hmem)
  refine ⟨_, _, h1, h2, h3, hH, hQ, ?_, ?_⟩
  · intro vs hmem
    have hm : "x-meta=hello+world" ∈ (sortSlice (req.Header.map (headerPair tbl))).map render :=
      List.mem_map_of_mem render (hH _ _ _ hmem)
    exact ⟨hm, mem_Join_sub _ _ _ hm⟩
  · intro k vs hmem
    have hr : render ⟨ToLower tbl k, ToLower tbl "hello world"⟩
        = ToLower tbl k ++ "=hello world" := by
      have hl : ToLower tbl "hello world" = "hello world" := rfl
      simp only [render, hl, String.append_assoc]
      rfl
    have hm : (ToLower tbl k ++ "=hello world")
        ∈ (sortSlice (req.Query.map (queryPair tbl))).map render :=
      hr ▸ List.mem_map_of_mem render (hQ _ _ _ hmem)
    exact ⟨hm, mem_Join_sub _ _ _ hm⟩

/-- Witness for the amended C4. -/
theorem header_escaped_query_plain_witness :
    (∀ kv ∈ spaceRequest.Query, kv.2 ≠ []) ∧ (∀ kv ∈ spaceRequest.Header, kv.2 ≠ []) ∧
    reqPayloadStr plainTable spaceRequest
      = some "get\n/\nq=hello world\nx-meta=hello+world\n" ∧
    ∃ qs hs,
      sortedQuerys plainTable spaceRequest = some qs ∧
      sortedHeaders plainTable spaceRequest = some hs ∧
      "x-meta=hello+world".data <:+: (headerSegment hs).data ∧
      "q=hello world".data <:+: (querySegment qs).data :=
  ⟨by decide, by decide, by decide,
    match header_escaped_query_plain plainTable spaceRequest (by decide) (by decide) with
    | ⟨qs, hs, h1, h2, _, _, _, h6, h7⟩ =>
      ⟨qs, hs, h1, h2, (h6 [] (by decide)).2, (h7 "q" [] (by decide)).2⟩⟩

/-- C7, as stated, fails twice.  The same request signed with the seven-field map
visited in literal order and in reverse order gives two different strings; and a
query map with the keys `A` and `a`, visited in its two possible orders, gives
two different signatures. -/
theorem signRequest_depends_on_visiting_order :
    (authKeys.reverse.Perm authKeys ∧
      ∀ tbl, signRequest tbl sampleClient bareRequest ⟨0, 0⟩ authKeys = some
          "q-sign-algorithm=sha1&q-ak=AKID&q-sign-time=0;30&q-key-time=0;30&q-header-list=&q-url-param-list=&q-signature=9edc9bac1186f707dffbb2688f01f45d9cc609e0" ∧
        signRequest tbl sampleClient bareRequest ⟨0, 0⟩ authKeys.reverse = some
          "q-signature=9edc9bac1186f707dffbb2688f01f45d9cc609e0&q-url-param-list=&q-header-list=&q-key-time=0;30&q-sign-time=0;30&q-ak=AKID&q-sign-algorithm=sha1" ∧
        signRequest tbl sampleClient bareRequest ⟨0, 0⟩ authKeys
          ≠ signRequest tbl sampleClient bareRequest ⟨0, 0⟩ authKeys.reverse) ∧
    (clashRequestSwapped.Method = clashRequest.Method ∧
      clashRequestSwapped.Path = clashRequest.Path ∧
      clashRequestSwapped.Query.Perm clashRequest.Query ∧
      clashRequestSwapped.Header.Perm clashRequest.Header ∧
      ∀ tbl, signRequest tbl sampleClient clashRequest ⟨0, 0⟩ authKeys = some
          "q-sign-algorithm=sha1&q-ak=AKID&q-sign-time=0;30&q-key-time=0;30&q-header-list=&q-url-param-list=a;a&q-signature=918249f0f4acb3827d87295dae79dbe8ac4b8fcb" ∧
        signRequest tbl sampleClient clashRequestSwapped ⟨0, 0⟩ authKeys = some
          "q-sign-algorithm=sha1&q-ak=AKID&q-sign-time=0;30&q-key-time=0;30&q-header-list=&q-url-param-list=a;a&q-signature=81f70c4dca6e2786238fbd27aba5a9f7445a7563" ∧
        signRequest tbl sampleClient clashRequest ⟨0, 0⟩ authKeys
          ≠ signRequest tbl sampleClient clashRequestSwapped ⟨0, 0⟩ authKeys) := by
  refine ⟨⟨List.reverse_perm _, fun tbl => ?_⟩,
    ⟨rfl, rfl, List.Perm.swap _ _ _, List.Perm.refl _, fun tbl => ?_⟩⟩
  · rw [signRequest_ascii tbl plainTable sampleClient bareRequest ⟨0, 0⟩ authKeys (by decide),
      signRequest_ascii tbl plainTable sampleClient bareRequest ⟨0, 0⟩ authKeys.reverse
        (by decide)]
    decide!
  · rw [signRequest_ascii tbl plainTable sampleClient clashRequest ⟨0, 0⟩ authKeys (by decide),
      signRequest_ascii tbl plainTable sampleClient clashRequestSwapped ⟨0, 0⟩ authKeys
        (by decide)]
    decide!

/-- C7, amended: with the seven-field map visited in one fixed order, and the
lowercased query keys pairwise distinct and the lowercased header keys pairwise
distinct, `signRequest` returns the same result whatever order the query map and
the header map are visited in; and two visiting orders of the seven-field map
give `&`-joins of the same fields, in the two visiting orders. -/
theorem signRequest_deterministic (tbl : Char → Char) (c : Client) (req req' : Request)
    (now : Time) (mOrder : List String)
    (hm : req'.Method = req.Method) (hp : req'.Path = req.Path)
    (hq : req'.Query.Perm req.Query) (hh : req'.Header.Perm req.Header)
    (hqk : (req.Query.map fun kv => ToLower tbl kv.1).Nodup)
    (hhk : (req.Header.map fun kv => ToLower tbl kv.1).Nodup) :
    signRequest tbl c req' now mOrder = signRequest tbl c req now mOrder ∧
    reqPayloadStr tbl req' = reqPayloadStr tbl req ∧
    (∀ mOrder' : List String, mOrder'.Perm mOrder →
      (∀ kv ∈ req.Query, kv.2 ≠ []) → (∀ kv ∈ req.Header, kv.2 ≠ []) →
      ∃ m, signRequest tbl c req now mOrder = some (Join (authFields m mOrder) "&") ∧
        signRequest tbl c req' now mOrder' = some (Join (authFields m mOrder') "&") ∧
        (authFields m mOrder').Perm (authFields m mOrder)) := by
  have hne : ∀ {l l' : List (String × List String)}, l'.Perm l →
      ((∀ kv ∈ l', kv.2 ≠ []) ↔ (∀ kv ∈ l, kv.2 ≠ [])) := by
    intro l l' hl
    constructor
    · intro h kv hkv
      exact h kv (hl.mem_iff.mpr hkv)
    · intro h kv hkv
      exact h kv (hl.mem_iff.mp hkv)
  have hsq : sortedQuerys tbl req' = sortedQuerys tbl req := by
    by_cases hv : ∀ kv ∈ req.Query, kv.2 ≠ []
    · simp only [sortedQuerys, queryPairs_eq tbl req.Query hv,
        queryPairs_eq tbl req'.Query ((hne hq).mpr hv), Option.map_some']
      congr 1
      apply sortSlice_unique _ _ (hq.map _)
      simpa [queryPair, Function.comp_def] using hqk
    · have hv1 : ∃ kv ∈ req.Query, kv.2 = [] := by
        push_neg at hv
        exact hv
      have hv2 : ∃ kv ∈ req'.Query, kv.2 = [] := by
        obtain ⟨kv, hkv, he⟩ := hv1
        exact ⟨kv, hq.mem_iff.mpr hkv, he⟩
      simp only [sortedQuerys, queryPairs_none tbl _ hv1, queryPairs_none tbl _ hv2]
  have hsh : sortedHeaders tbl req' = sortedHeaders tbl req := by
    by_cases hv : ∀ kv ∈ req.Header, kv.2 ≠ []
    · simp only [sortedHeaders, headerPairs_eq tbl req.Header hv,
        headerPairs_eq tbl req'.Header ((hne hh).mpr hv), Option.map_some']
      congr 1
      apply sortSlice_unique _ _ (hh.map _)
      simpa [headerPair, Function.comp_def] using hhk
    · have hv1 : ∃ kv ∈ req.Header, kv.2 = [] := by
        push_neg at hv
        exact hv
      have hv2 : ∃ kv ∈ req'.Header, kv.2 = [] := by
        obtain ⟨kv, hkv, he⟩ := hv1
        exact ⟨kv, hh.mem_iff.mpr hkv, he⟩
      simp only [sortedHeaders, headerPairs_none tbl _ hv1, headerPairs_none tbl _ hv2]
  have hsame : ∀ o, signRequest tbl c req' now o = signRequest tbl c req now o := by
    intro o
    simp only [signRequest, hsq, hsh, payloadOf, hm, hp]
  refine ⟨hsame mOrder, ?_, ?_⟩
  · simp only [reqPayloadStr, hsq, hsh, payloadOf, hm, hp]
  · intro mOrder' hperm hvq hvh
    obtain ⟨_, _, _, h4⟩ := signRequest_eq tbl c req now mOrder hvq hvh
    obtain ⟨_, _, _, h4'⟩ := signRequest_eq tbl c req now mOrder' hvq hvh
    exact ⟨_, h4, (hsame mOrder').trans h4', authFields_perm _ _ _ hperm⟩

/-- Witness for the amended C7. -/
theorem signRequest_deterministic_witness :
    sampleRequestSwapped.Method = sampleRequest.Method ∧
    sampleRequestSwapped.Path = sampleRequest.Path ∧
    sampleRequestSwapped.Query.Perm sampleRequest.Query ∧
    sampleRequestSwapped.Header.Perm sampleRequest.Header ∧
    (sampleRequest.Query.map fun kv => ToLower plainTable kv.1).Nodup ∧
    (sampleRequest.Header.map fun kv => ToLower plainTable kv.1).Nodup ∧
    signRequest plainTable sampleClient sampleRequestSwapped ⟨1000, 5⟩ authKeys
      = signRequest plainTable sampleClient sampleRequest ⟨1000, 5⟩ authKeys :=
  ⟨rfl, rfl, List.Perm.swap _ _ _, List.Perm.swap _ _ _, by decide, by decide,
    (signRequest_deterministic plainTable sampleClient sampleRequest sampleRequestSwapped
      ⟨1000, 5⟩ authKeys rfl rfl (List.Perm.swap _ _ _) (List.Perm.swap _ _ _)
      (by decide) (by decide)).1⟩

/-- C9, as stated, fails: with an empty SecretId, with an empty SecretKey, and
with both empty, `NewClient` builds the client and `signRequest` returns an
authorization string. -/
theorem signRequest_accepts_empty_credentials :
    (emptyIdClient.cf.SecretId = "" ∧
      ∀ tbl, signRequest tbl emptyIdClient bareRequest ⟨0, 0⟩ authKeys = some
        "q-sign-algorithm=sha1&q-ak=&q-sign-time=0;30&q-key-time=0;30&q-header-list=&q-url-param-list=&q-signature=9edc9bac1186f707dffbb2688f01f45d9cc609e0") ∧
    (emptyKeyClient.cf.SecretKey = "" ∧
      ∀ tbl, signRequest tbl emptyKeyClient bareRequest ⟨0, 0⟩ authKeys = some
        "q-sign-algorithm=sha1&q-ak=AKID&q-sign-time=0;30&q-key-time=0;30&q-header-list=&q-url-param-list=&q-signature=00a83b810a587909f2ff2ebb3f87321ac06a3563") ∧
    (emptyClient.cf.SecretId = "" ∧ emptyClient.cf.SecretKey = "" ∧
      ∀ tbl, signRequest tbl emptyClient bareRequest ⟨0, 0⟩ authKeys = some
        "q-sign-algorithm=sha1&q-ak=&q-sign-time=0;30&q-key-time=0;30&q-header-list=&q-url-param-list=&q-signature=00a83b810a587909f2ff2ebb3f87321ac06a3563") := by
  refine ⟨⟨rfl, fun tbl => ?_⟩, ⟨rfl, fun tbl => ?_⟩, ⟨rfl, rfl, fun tbl => ?_⟩⟩
  · rw [signRequest_ascii tbl plainTable emptyIdClient bareRequest ⟨0, 0⟩ authKeys (by decide)]
    decide!
  · rw [signRequest_ascii tbl plainTable emptyKeyClient bareRequest ⟨0, 0⟩ authKeys (by decide)]
    decide!
  · rw [signRequest_ascii tbl plainTable emptyClient bareRequest ⟨0, 0⟩ authKeys (by decide)]
    decide!

/-- C9, amended: `signRequest` checks no credential.  For every configuration,
empty SecretId or SecretKey included, it returns an authorization string exactly
when every query key and every header key has at least one value, and whether it
returns one does not depend on the configuration. -/
theorem signRequest_returns_iff (tbl : Char → Char) (c : Client) (req : Request)
    (now : Time) (mOrder : List String) :
    ((∃ out, signRequest tbl c req now mOrder = some out) ↔
      (∀ kv ∈ req.Query, kv.2 ≠ []) ∧ (∀ kv ∈ req.Header, kv.2 ≠ [])) ∧
    (∀ conf : Config,
      (signRequest tbl (NewClient conf) req now mOrder).isSome
        = (signRequest tbl c req now mOrder).isSome) := by
  have key : ∀ c' : Client, (∃ out, signRequest tbl c' req now mOrder = some out) ↔
      (∀ kv ∈ req.Query, kv.2 ≠ []) ∧ (∀ kv ∈ req.Header, kv.2 ≠ []) := by
    intro c'
    constructor
    · rintro ⟨out, hout⟩
      by_contra hcon
      rw [not_and_or] at hcon
      rcases hcon with hv | hv
      · push_neg at hv
        simp [signRequest, sortedQuerys, queryPairs_none tbl _ hv] at hout
      · push_neg at hv
        simp only [signRequest, sortedHeaders, headerPairs_none tbl _ hv] at hout
        cases hs : sortedQuerys tbl req <;> simp [hs] at hout
    · rintro ⟨hq, hh⟩
      exact ⟨_, (signRequest_eq tbl c' req now mOrder hq hh).2.2.2⟩
  refine ⟨key c, fun conf => ?_⟩
  have h1 := key (NewClient conf)
  have h2 := key c
  cases ha : signRequest tbl (NewClient conf) req now mOrder with
  | none =>
    cases hb : signRequest tbl c req now mOrder with
    | none => rfl
    | some b =>
      obtain ⟨out, hout⟩ := h1.mpr (h2.mp ⟨b, hb⟩)
      rw [ha] at hout
      cases hout
  | some a =>
    cases hb : signRequest tbl c req now mOrder with
    | none =>
      obtain ⟨out, hout⟩ := h2.mpr (h1.mp ⟨a, ha⟩)
      rw [hb] at hout
      cases hout
    | some b => rfl

/-- C10, at the failing input: the full name that `Bucket.Address` builds for
Name `test-123` and AppId `1203324242` is `test-123-1203324242`, and
`ListBuckets` turns a listed entry with that name into Name `test` and AppId
`123`; the full name `test-1203324242` is split as expected, and a name
without a hyphen makes `a[1]` fail. -/
theorem ListBuckets_splits_at_first_hyphen :
    Bucket.fullName { Name := "test-123", AppId := "1203324242", Region := "ap-shanghai" } = "test-123-1203324242" ∧
    Bucket.Address { Name := "test-123", AppId := "1203324242", Region := "ap-shanghai" }
      = "https://test-123-1203324242.cos.ap-shanghai.myqcloud.com" ∧
    Split "test-123-1203324242" (Char.ofNat 45) = ["test", "123", "1203324242"] ∧
    ListBuckets [("test-123-1203324242", "ap-shanghai")]
      = some [{ Name := "test", AppId := "123", Region := "ap-shanghai" }] ∧
    ListBuckets [("test-123-1203324242", "ap-shanghai")]
      ≠ some [{ Name := "test-123", AppId := "1203324242", Region := "ap-shanghai" }] ∧
    ListBuckets [("test-1203324242", "ap-beijing")]
      = some [{ Name := "test", AppId := "1203324242", Region := "ap-beijing" }] ∧
    ListBuckets [("test", "ap-beijing")] = none := by
  refine ⟨by decide, by decide, by decide, by decide, by decide, by decide, by decide⟩

end Cos
